import Mathlib

/-!
# Verification of the pi-rlm repo-scale recursive runner and interactive engine

Shallow embedding of the core of `pi-rlm`: the repo-scale recursive runner
(`RepoRLMStore`, the event-sourced orchestrator) and the interactive RLM
engine (`RLMEngine`).  Pure logic from the TypeScript source is translated
into executable Lean definitions; filesystem enumeration is modelled by an
explicit directory-tree value, and the mutable shared budget counter of the
interactive engine by an explicit heap of counters.

The theorems at the end of the file settle the frozen claims C1–C10 about
the natural-language specification of the program.
-/

namespace PiRLM

/-- Run modes of the repo-scale runner (`RepoRLMMode` in the source). -/
inductive Mode
  | generic
  | wiki
  | review
  deriving DecidableEq, Repr

/-- Node status (`RepoRLMNodeStatus`). -/
inductive NodeStatus
  | queued
  | running
  | completed
  | failed
  | cancelled
  deriving DecidableEq, Repr

/-- Node decision (`RepoRLMNodeDecision`). -/
inductive NodeDecision
  | undecided
  | leaf
  | split
  deriving DecidableEq, Repr

/-- Scope type of a node (`RepoRLMNodeScopeType`). -/
inductive ScopeType
  | repo
  | dir
  | module
  | file_group
  | file_slice
  deriving DecidableEq, Repr

/-- Run status (the `status` field of `RepoRLMRun`). -/
inductive RunStatus
  | running
  | completed
  | failed
  | cancelled
  deriving DecidableEq, Repr

/-- Result status (the `status` field of `RepoRLMResult`); `partialRes`
renders the source's `"partial"`. -/
inductive ResultStatus
  | completed
  | partialRes
  | failed
  deriving DecidableEq, Repr

/-- `isTerminalNodeStatus` from the source: completed, failed or cancelled. -/
def isTerminalNodeStatus : NodeStatus → Bool
  | .completed => true
  | .failed => true
  | .cancelled => true
  | _ => false

/-- Node budgets (the `budgets` field of `RepoRLMNode`).  JS numbers are
modelled as unbounded integers. -/
structure NodeBudgets where
  max_depth : Int
  remaining_llm_calls : Int
  remaining_tokens : Int
  deadline_epoch_ms : Int
  deriving DecidableEq, Repr

/-- Scheduler selection policy of a run. -/
inductive Scheduler
  | bfs
  | dfs
  | hybrid
  deriving DecidableEq, Repr

/-- Run configuration (`RepoRLMRunConfig`). -/
structure RunConfig where
  max_depth : Nat
  max_llm_calls : Int
  max_tokens : Int
  max_wall_clock_ms : Int
  scheduler : Scheduler
  deriving DecidableEq, Repr

/-- Scope-walk metrics (`ScopeMetrics`): the paths are kept abstract as
strings. -/
structure ScopeMetrics where
  fileCount : Nat
  totalBytes : Nat
  sampledFiles : List String
  deriving DecidableEq, Repr

/-- The reasons the decision engine may return (persisted as strings in the
source). -/
inductive DecisionReason
  | deadline_exceeded
  | max_depth_reached
  | llm_budget_exhausted
  | token_budget_exhausted
  | scope_too_large
  | scope_small_enough
  deriving DecidableEq, Repr

/-- A leaf/split decision. -/
inductive Decision
  | leaf
  | split
  deriving DecidableEq, Repr

/-- The pure core of `RepoRLMStore.decideNode`: given the run mode and
max-depth, the wall clock `now` (`Date.now()` in the source), the node's
depth and budgets, and the scope metrics it collected, return the decision
and its reason exactly as in the source. -/
def decideNode (mode : Mode) (maxDepth : Nat) (now : Int) (depth : Nat)
    (budgets : NodeBudgets) (metrics : ScopeMetrics) : Decision × DecisionReason :=
  if now > budgets.deadline_epoch_ms then
    (.leaf, .deadline_exceeded)
  else if depth ≥ maxDepth then
    (.leaf, .max_depth_reached)
  else if budgets.remaining_llm_calls ≤ 0 then
    (.leaf, .llm_budget_exhausted)
  else if budgets.remaining_tokens ≤ 0 then
    (.leaf, .token_budget_exhausted)
  else
    let splitThresholdFiles : Nat := if mode = .review then 12 else 16
    let splitThresholdBytes : Nat := if mode = .review then 2000000 else 3000000
    if metrics.fileCount > splitThresholdFiles ∨ metrics.totalBytes > splitThresholdBytes then
      (.split, .scope_too_large)
    else
      (.leaf, .scope_small_enough)

/-- First-applicable-rule selection: return the outcome of the first entry
whose guard holds, else the default. -/
def firstApplicable {α : Type} : List (Bool × α) → α → α
  | [], dflt => dflt
  | (c, a) :: rest, dflt => if c then a else firstApplicable rest dflt

/-- Modelled from claim C4's words: the file-count split threshold,
12 in review mode and 16 otherwise. -/
def tFiles (mode : Mode) : Nat := if mode = .review then 12 else 16

/-- Modelled from claim C4's words: the byte split threshold,
2,000,000 in review mode and 3,000,000 otherwise. -/
def tBytes (mode : Mode) : Nat := if mode = .review then 2000000 else 3000000

/-- Modelled from claim C4's words: the decision engine returns the first
applicable reason in the fixed order deadline_exceeded, max_depth_reached,
llm_budget_exhausted, token_budget_exhausted (each forcing leaf), then
scope_too_large forcing split, else scope_small_enough forcing leaf. -/
def decideNodeSpec (mode : Mode) (maxDepth : Nat) (now : Int) (depth : Nat)
    (budgets : NodeBudgets) (metrics : ScopeMetrics) : Decision × DecisionReason :=
  firstApplicable
    [ (decide (now > budgets.deadline_epoch_ms), (.leaf, .deadline_exceeded)),
      (decide (depth ≥ maxDepth), (.leaf, .max_depth_reached)),
      (decide (budgets.remaining_llm_calls ≤ 0), (.leaf, .llm_budget_exhausted)),
      (decide (budgets.remaining_tokens ≤ 0), (.leaf, .token_budget_exhausted)),
      (decide (metrics.fileCount > tFiles mode ∨ metrics.totalBytes > tBytes mode),
        (.split, .scope_too_large)) ]
    (.leaf, .scope_small_enough)

/-! ## Findings, results, artifacts -/

/-- Finding severity (`FindingSeverity`). -/
inductive Severity
  | critical
  | high
  | medium
  | low
  | info
  deriving DecidableEq, Repr

/-- `severityRank` from the source: critical=5 .. info=1. -/
def severityRank : Severity → Nat
  | .critical => 5
  | .high => 4
  | .medium => 3
  | .low => 2
  | .info => 1

/-- An evidence pointer (`FindingEvidence`).  Line numbers are integers as in
the source. -/
structure Evidence where
  path : String
  line_start : Int
  line_end : Int
  quote : Option String
  deriving DecidableEq, Repr

/-- A review finding (`ReviewFinding`); `confidence` is a JS number, modelled
as an exact rational. -/
structure Finding where
  id : String
  domain : String
  severity : Severity
  confidence : ℚ
  title : String
  description : String
  suggested_fix : Option String
  evidence : List Evidence
  deriving DecidableEq, Repr

/-- An artifact index entry (`{kind, path}`). -/
structure Artifact where
  kind : String
  path : String
  deriving DecidableEq, Repr

/-- A node result (`RepoRLMResult`). -/
structure ResultRec where
  run_id : String
  node_id : String
  status : ResultStatus
  summary : String
  findings : List Finding
  artifacts : List Artifact
  aggregation_notes : Option String
  created_at : String
  deriving DecidableEq, Repr

/-- Optional node metrics (the `metrics` field of `RepoRLMNode`). -/
structure NodeMetrics where
  file_count : Option Nat
  total_bytes : Option Nat
  duration_ms : Option Int
  findings_count : Option Nat
  deriving DecidableEq, Repr

/-- A filesystem path, as the list of its segments relative to the store's
working directory. -/
abbrev FilePath' := List String

/-- A node of the run tree (`RepoRLMNode`).  `scope_paths` renders
`scope_ref.paths`. -/
structure Node where
  run_id : String
  node_id : String
  parent_id : Option String
  depth : Nat
  scope_type : ScopeType
  scope_paths : List FilePath'
  objective : String
  status : NodeStatus
  decision : NodeDecision
  decision_reason : Option DecisionReason
  child_ids : List String
  confidence : Option ℚ
  budgets : NodeBudgets
  metrics : Option NodeMetrics
  created_at : String
  updated_at : String
  deriving DecidableEq, Repr

/-- A queue event (`QueueEvent`); `details` keeps the numeric detail fields
used by aggregation. -/
structure QueueEvent where
  run_id : String
  event : String
  node_id : String
  timestamp : String
  details : List (String × Int)
  deriving DecidableEq, Repr

/-! ## Filesystem model and the split planner -/

/-- A filesystem entry: a file with its byte size, or a directory with its
named entries in enumeration order.  This models the accessible part of the
tree that `statSync`/`readdirSync` observe. -/
inductive FSEntry
  | file (size : Nat)
  | dir (entries : List (String × FSEntry))

/-- Resolve a path against a filesystem root (the `statSync` of the model):
`none` models a missing or inaccessible entry. -/
def FSEntry.lookup : FilePath' → FSEntry → Option FSEntry
  | [], e => some e
  | _ :: _, .file _ => none
  | seg :: rest, .dir entries =>
    match entries.find? (fun p => p.1 == seg) with
    | none => none
    | some p => FSEntry.lookup rest p.2

/-- Whether an entry is a directory (`st.isDirectory()`). -/
def FSEntry.isDir : FSEntry → Bool
  | .dir _ => true
  | .file _ => false

/-- The accumulating state of `splitNode`'s enumeration: the `dirs` and
`files` arrays of the source. -/
structure SplitEnum where
  dirs : List FilePath'
  files : List FilePath'
  deriving DecidableEq, Repr

/-- One directory's pass of `splitNode`'s enumeration: push each entry that
is a directory onto `dirs` and each file onto `files`, in `readdirSync`
order. -/
def enumEntries (p : FilePath') (acc : SplitEnum) : List (String × FSEntry) → SplitEnum
  | [] => acc
  | (name, .dir _) :: rest => enumEntries p { acc with dirs := acc.dirs ++ [p ++ [name]] } rest
  | (name, .file _) :: rest => enumEntries p { acc with files := acc.files ++ [p ++ [name]] } rest

/-- The enumeration loop of `RepoRLMStore.splitNode` (source lines
1683–1714): a scope path that is a file goes to `files`; a directory
contributes its immediate children; a missing path is skipped. -/
def enumForSplit (fs : FSEntry) (acc : SplitEnum) : List FilePath' → SplitEnum
  | [] => acc
  | p :: rest =>
    match FSEntry.lookup p fs with
    | none => enumForSplit fs acc rest
    | some (.file _) => enumForSplit fs { acc with files := acc.files ++ [p] } rest
    | some (.dir entries) => enumForSplit fs (enumEntries p acc entries) rest

/-- The `dirs`/`files` enumeration of `splitNode` for a node's scope paths. -/
def splitEnumOf (fs : FSEntry) (paths : List FilePath') : SplitEnum :=
  enumForSplit fs ⟨[], []⟩ paths

/-- The recursion of `chunk`, with an explicit fuel argument so the
function computes by structural recursion: each step emits the next
`size`-slice and advances past it.  The fuel is always at least the list
length at every call, so the zero-fuel branch is unreachable. -/
def chunkAux {α : Type} (size : Nat) : Nat → List α → List (List α)
  | _, [] => []
  | 0, _ :: _ => []
  | fuel + 1, x :: xs => (x :: xs).take size :: chunkAux size fuel (xs.drop (size - 1))

/-- `chunk` from the source: slices of `size` consecutive items.  (The
source's loop advances by `size`; it is only ever called with `size = 8`.) -/
def chunk {α : Type} (size : Nat) (items : List α) : List (List α) :=
  chunkAux size items.length items

/-- A planned child scope of a split (`childScopes` entries in the source). -/
structure ChildScope where
  scope_type : ScopeType
  paths : List FilePath'
  label : String
  deriving DecidableEq, Repr

/-- The child-scope planning of `splitNode`: one `dir` child per enumerated
subdirectory when any exists, otherwise the enumerated files in chunks of up
to 8 as `file_group` children.  Labels are the directory basename or
`group-<i>`. -/
def splitChildScopes (e : SplitEnum) : List ChildScope :=
  if e.dirs.length > 0 then
    e.dirs.map (fun d => { scope_type := .dir, paths := [d], label := d.getLastD "" })
  else
    (chunk 8 e.files).enum.map
      (fun gi => { scope_type := .file_group, paths := gi.2, label := "group-" ++ toString (gi.1 + 1) })

/-- The node-id label sanitization of `splitNode`:
`label.replace(/[^a-zA-Z0-9_-]/g, "_")`. -/
def sanitizeLabel (label : String) : String :=
  String.mk (label.toList.map (fun c => if c.isAlphanum ∨ c = '_' ∨ c = '-' then c else '_'))

/-- The child-node construction of `RepoRLMStore.splitNode` (source lines
1716–1775): distribute the parent's remaining budgets minus the
cost-of-split (1 llm call, 4000 tokens) equally across the children,
inherit the deadline, and create each child queued one level deeper.
`Math.floor` on the non-negative JS quotient is floor division `Int.fdiv`. -/
def splitNodeChildren (runId : String) (fs : FSEntry) (node : Node) (now : String) : List Node :=
  let e := splitEnumOf fs node.scope_paths
  let llmBudgetAfterSplit : Int := max 0 (node.budgets.remaining_llm_calls - 1)
  let tokenBudgetAfterSplit : Int := max 0 (node.budgets.remaining_tokens - 4000)
  let childScopes := splitChildScopes e
  let perChildCalls : Int :=
    if childScopes.length > 0 then llmBudgetAfterSplit.fdiv childScopes.length else 0
  let perChildTokens : Int :=
    if childScopes.length > 0 then tokenBudgetAfterSplit.fdiv childScopes.length else 0
  childScopes.enum.map fun is =>
    { run_id := runId
      node_id := node.node_id ++ ":" ++ toString (is.1 + 1) ++ ":" ++ sanitizeLabel is.2.label
      parent_id := some node.node_id
      depth := node.depth + 1
      scope_type := is.2.scope_type
      scope_paths := is.2.paths
      objective := node.objective
      status := .queued
      decision := .undecided
      decision_reason := none
      child_ids := []
      confidence := none
      budgets :=
        { max_depth := node.budgets.max_depth
          remaining_llm_calls := max 0 perChildCalls
          remaining_tokens := max 0 perChildTokens
          deadline_epoch_ms := node.budgets.deadline_epoch_ms }
      metrics := none
      created_at := now
      updated_at := now }

/-! ## Review pattern scan (leaf executor) -/

/-- `String.prototype.indexOf` on character lists: the index of the first
occurrence of `pat`, if any. -/
def strIndexOf (pat : List Char) : List Char → Option Nat
  | [] => if pat = [] then some 0 else none
  | c :: rest =>
    if pat.isPrefixOf (c :: rest) then some 0
    else (strIndexOf pat rest).map (· + 1)

/-- `lineNumberAt` from the source: `text.slice(0, index).split("\n").length`,
which is one more than the number of newlines before `index`. -/
def lineNumberAt (text : List Char) (index : Nat) : Nat :=
  (text.take index).count '\n' + 1

/-- One pattern check of the review scan: pattern, severity, title, domain. -/
structure ReviewCheck where
  pattern : String
  severity : Severity
  title : String
  domain : String

/-- The fixed pattern set of `scanReviewFindings`. -/
def reviewChecks : List ReviewCheck :=
  [ { pattern := "eval(", severity := .high, title := "Potential dynamic code execution",
      domain := "security" },
    { pattern := "TODO", severity := .low, title := "Unresolved TODO found", domain := "quality" },
    { pattern := "any", severity := .medium, title := "Type safety risk (`any`)",
      domain := "quality" } ]

/-- The `suggested_fix` strings of the review scan, keyed on the pattern. -/
def reviewSuggestedFix (pattern : String) : String :=
  if pattern = "any" then "Replace `any` with stricter types."
  else if pattern = "TODO" then "Track TODO in issue and resolve or remove."
  else "Avoid eval-like constructs or strictly validate inputs."

/-- A sampled file as seen by the review scan: its path (already relative),
its `statSync` size, and its content. -/
structure ScanFile where
  path : String
  size : Nat
  content : List Char
  deriving DecidableEq

/-- The per-file inner loop of `scanReviewFindings`: run each check in order
against the content; `base` is the number of findings already pushed (the
source ids findings as `<node_id>:<findings.length + 1>`). -/
def scanFileChecks (nodeId relPath : String) (content : List Char) (base : Nat) :
    List ReviewCheck → List Finding
  | [] => []
  | ch :: rest =>
    match strIndexOf ch.pattern.toList content with
    | none => scanFileChecks nodeId relPath content base rest
    | some idx =>
      let ln := lineNumberAt content idx
      { id := nodeId ++ ":" ++ toString (base + 1)
        domain := ch.domain
        severity := ch.severity
        confidence := if ch.severity = .high then 0.8 else 0.6
        title := ch.title
        description := "Pattern `" ++ ch.pattern ++ "` detected in " ++ relPath
        suggested_fix := some (reviewSuggestedFix ch.pattern)
        evidence := [{ path := relPath, line_start := (ln : Int), line_end := (ln : Int),
                       quote := some ch.pattern }] } ::
        scanFileChecks nodeId relPath content (base + 1) rest

/-- The file loop of `scanReviewFindings`: a file larger than 256,000 bytes
is skipped (`continue`); after a scanned file, the loop breaks once at least
25 findings have accumulated. -/
def scanFilesLoop (nodeId : String) : List ScanFile → List Finding → List Finding
  | [], acc => acc
  | f :: rest, acc =>
    if f.size > 256000 then scanFilesLoop nodeId rest acc
    else
      if (acc ++ scanFileChecks nodeId f.path f.content acc.length reviewChecks).length ≥ 25 then
        acc ++ scanFileChecks nodeId f.path f.content acc.length reviewChecks
      else scanFilesLoop nodeId rest (acc ++ scanFileChecks nodeId f.path f.content acc.length reviewChecks)

/-- `RepoRLMStore.scanReviewFindings` (source lines 1777–1835): empty outside
review mode, else the pattern scan over the first `min(40, files.length)`
sampled files. -/
def scanReviewFindings (mode : Mode) (nodeId : String) (files : List ScanFile) : List Finding :=
  if mode ≠ .review then []
  else scanFilesLoop nodeId (files.take (min 40 files.length)) []

/-! ## Aggregation of ready split parents -/

/-- The per-parent emission of `RepoRLMStore.aggregateReadySplitParents`
(source lines 1931–1972): the flattened parent `Result`, the terminalized
parent node, and the `node_aggregated` queue event. -/
def aggregateParent (runId : String) (parent : Node) (childNodes : List Node)
    (childResults : List ResultRec) (now : String) : ResultRec × Node × QueueEvent :=
  let failedChildren :=
    (childNodes.filter (fun n => decide (n.status = .failed ∨ n.status = .cancelled))).length
  let summaryLines :=
    ("Aggregated " ++ toString childNodes.length ++ " child nodes for " ++ parent.node_id ++ ".") ::
      (childResults.take 8).map (fun r => "- " ++ r.node_id ++ ": " ++ r.summary)
  let findings := childResults.flatMap (·.findings)
  let artifacts := childResults.flatMap (·.artifacts)
  let result : ResultRec :=
    { run_id := runId
      node_id := parent.node_id
      status := if failedChildren > 0 then .partialRes else .completed
      summary := String.intercalate "\n" summaryLines
      findings := findings
      artifacts := artifacts
      aggregation_notes :=
        if failedChildren > 0 then
          some (toString failedChildren ++ " child nodes failed or were cancelled.")
        else none
      created_at := now }
  let updatedParent : Node :=
    { parent with
      status := if failedChildren = childNodes.length then .failed else .completed
      confidence := some (if failedChildren > 0 then 0.6 else 0.8)
      metrics := some { (parent.metrics.getD ⟨none, none, none, none⟩) with
                        findings_count := some findings.length }
      updated_at := now }
  let event : QueueEvent :=
    { run_id := runId
      event := "node_aggregated"
      node_id := parent.node_id
      timestamp := now
      details := [("child_count", (childNodes.length : Int)),
                  ("failed_children", (failedChildren : Int))] }
  (result, updatedParent, event)

/-- The child nodes a parent resolves against the latest node snapshots:
`parent.child_ids.map(id => nodes.find(...)).filter(Boolean)`. -/
def resolveChildNodes (nodes : List Node) (parent : Node) : List Node :=
  parent.child_ids.filterMap (fun id => nodes.find? (fun n => n.node_id == id))

/-- The guard of the aggregation pass for one parent: a split parent that is
running, has no result yet, has a non-empty `child_ids` all of which resolve
to terminal nodes. -/
def aggregationReady (nodes : List Node) (resultMap : List (String × ResultRec))
    (parent : Node) : Bool :=
  parent.decision = .split ∧ parent.status = .running ∧
    (resultMap.lookup parent.node_id).isNone ∧ parent.child_ids ≠ [] ∧
    (resolveChildNodes nodes parent).length = parent.child_ids.length ∧
    (resolveChildNodes nodes parent).all (fun n => isTerminalNodeStatus n.status)

/-- `RepoRLMStore.aggregateReadySplitParents` (source lines 1910–1978) as the
list of emissions it appends, over a snapshot of the latest nodes and the
latest result per node id. -/
def aggregateReadySplitParents (runId : String) (nodes : List Node)
    (resultMap : List (String × ResultRec)) (now : String) :
    List (ResultRec × Node × QueueEvent) :=
  nodes.filterMap fun parent =>
    if aggregationReady nodes resultMap parent then
      let childNodes := resolveChildNodes nodes parent
      let childResults := childNodes.filterMap (fun n => resultMap.lookup n.node_id)
      some (aggregateParent runId parent childNodes childResults now)
    else none

/-! ## Review synthesis: dedupe and rank -/

/-- The dedupe key of `dedupeAndRankFindings`:
`(domain, title, evidence0.path, evidence0.line_start, evidence0.line_end)`
joined with `|` (the source reads `f.evidence[0]!`). -/
def dedupeKey (f : Finding) : String :=
  let e := f.evidence.headD { path := "", line_start := 0, line_end := 0, quote := none }
  f.domain ++ "|" ++ f.title ++ "|" ++ e.path ++ "|" ++ toString e.line_start ++ "|" ++
    toString e.line_end

/-- One step of the `byKey` map construction of `dedupeAndRankFindings`:
a new key is appended; a colliding entry is replaced in place when the
incoming finding has strictly higher severity rank, or, failing that,
strictly higher confidence. -/
def dedupeInsert (acc : List (String × Finding)) (f : Finding) : List (String × Finding) :=
  let key := dedupeKey f
  match acc.lookup key with
  | none => acc ++ [(key, f)]
  | some existing =>
    let betterSeverity := severityRank f.severity > severityRank existing.severity
    let betterConfidence := f.confidence > existing.confidence
    if betterSeverity ∨ (¬ betterSeverity ∧ betterConfidence) then
      acc.map (fun p => if p.1 == key then (key, f) else p)
    else acc

/-- The descending (severity rank, confidence) comparison realized by the
sort comparator of `dedupeAndRankFindings` (stable, as JS `Array.sort`). -/
def rankedBefore (a b : Finding) : Bool :=
  severityRank b.severity < severityRank a.severity ∨
    (severityRank a.severity = severityRank b.severity ∧ b.confidence ≤ a.confidence)

/-- `RepoRLMStore.dedupeAndRankFindings` (source lines 2441–2465): fold the
findings into the insertion-ordered key map, then sort the values by
descending severity rank and, within a rank, descending confidence. -/
def dedupeAndRankFindings (findings : List Finding) : List Finding :=
  ((findings.foldl dedupeInsert []).map Prod.snd).mergeSort rankedBefore

/-! ## Output index maintenance -/

/-- The map key `${kind}|${path}` used by `synthesizeRun` and
`registerArtifacts`. -/
def artifactKey (a : Artifact) : String := a.kind ++ "|" ++ a.path

/-- JS `Map.set` on the artifact map: replace in place on an existing key,
append otherwise. -/
def artifactUpsert (m : List (String × Artifact)) (a : Artifact) : List (String × Artifact) :=
  if (m.lookup (artifactKey a)).isSome then
    m.map (fun p => if p.1 == artifactKey a then (p.1, a) else p)
  else m ++ [(artifactKey a, a)]

/-- The path ordering used to sort `output_index`
(`a.path.localeCompare(b.path)`, modelled as code-unit string order). -/
def pathBefore (a b : Artifact) : Bool := a.path ≤ b.path

/-- The `output_index` rewrite of `RepoRLMStore.registerArtifacts` (source
lines 2819–2834): existing entries then the new ones through the keyed map,
values sorted by path. -/
def registerArtifactsIndex (existing incoming : List Artifact) : List Artifact :=
  ((incoming.foldl artifactUpsert (existing.foldl artifactUpsert [])).map Prod.snd).mergeSort
    pathBefore

/-- The `output_index` rewrite of `RepoRLMStore.synthesizeRun` (source lines
2778–2812): synthesized artifacts first, then the existing index, through
the keyed map, values sorted by path. -/
def synthesizeRunIndex (synthesized existing : List Artifact) : List Artifact :=
  ((existing.foldl artifactUpsert (synthesized.foldl artifactUpsert [])).map Prod.snd).mergeSort
    pathBefore

/-- The `output_index` rewrite at the end of `RepoRLMStore.executeStep`
(source lines 2218–2226): the concatenation of the artifact lists of all
latest results, with no dedupe. -/
def stepOutputIndex (latestResults : List ResultRec) : List Artifact :=
  latestResults.flatMap (·.artifacts)

/-- No two artifacts with the same `(kind, path)` pair: the spec's dedupe
invariant on `output_index`. -/
def artifactsDeduped (l : List Artifact) : Prop :=
  l.Pairwise (fun a b => ¬ (a.kind = b.kind ∧ a.path = b.path))

/-! ## Run document, cancel, and status refresh -/

/-- Run progress (the `progress` field of `RepoRLMRun`). -/
structure Progress where
  nodes_total : Nat
  nodes_completed : Nat
  nodes_failed : Nat
  active_nodes : Nat
  max_depth_seen : Nat
  deriving DecidableEq, Repr

/-- Run checkpoint (the `checkpoint` field of `RepoRLMRun`). -/
structure Checkpoint where
  last_event_offset : Nat
  updated_at : String
  deriving DecidableEq, Repr

/-- The run document (`RepoRLMRun`). -/
structure Run where
  run_id : String
  objective : String
  mode : Mode
  status : RunStatus
  root_node_id : String
  config : RunConfig
  progress : Progress
  output_index : List Artifact
  checkpoint : Checkpoint
  created_at : String
  updated_at : String
  completed_at : Option String
  deriving DecidableEq, Repr

/-- `RepoRLMStore.cancelRun` (source lines 2332–2356): a typed failure when
the run is `completed` or `failed`; otherwise set the run cancelled,
terminalize every queued/running node to `cancelled`, and emit a
`run_cancelled` queue event. -/
def cancelRun (run : Run) (nodes : List Node) (now : String) :
    Except String (Run × List Node × QueueEvent) :=
  if run.status = .completed ∨ run.status = .failed then
    .error "Cannot cancel run in terminal state"
  else
    let run' := { run with
      status := .cancelled
      updated_at := now
      completed_at := some now
      checkpoint := { run.checkpoint with updated_at := now } }
    let nodes' := nodes.map fun n =>
      if n.status = .queued ∨ n.status = .running then
        { n with status := .cancelled, updated_at := now }
      else n
    .ok (run', nodes',
      { run_id := run.run_id, event := "run_cancelled", node_id := run.root_node_id,
        timestamp := now, details := [] })

/-- The run rewrite of `RepoRLMStore.getStatus` (source lines 2280–2330):
recompute `progress` from the latest node snapshots, refresh the checkpoint
offset from the queue event count, stamp `updated_at`, and persist; every
other field is carried over. -/
def getStatusRun (run : Run) (nodes : List Node) (queueEvents : List QueueEvent)
    (now : String) : Run :=
  { run with
    progress :=
      { nodes_total := nodes.length
        nodes_completed := (nodes.filter (fun n => decide (n.status = .completed))).length
        nodes_failed := (nodes.filter (fun n => decide (n.status = .failed))).length
        active_nodes := (nodes.filter (fun n => decide (n.status = .running))).length
        max_depth_seen := nodes.foldl (fun m n => max m n.depth) 0 }
    updated_at := now
    checkpoint := { last_event_offset := queueEvents.length, updated_at := now } }

/-! ## Interactive engine: shared budget counter

`RLMEngine` keeps its sub-call budget in a mutable `SharedRLMState` object;
the root allocates it (`sharedState ?? { llmCalls: 0, rlmCalls: 0 }`) and
`spawnChildRLM` passes `this.sharedState` to every child, so all engines of
a run tree reference one object.  The heap of allocated counter objects is
modelled explicitly so that this aliasing is a proved fact rather than an
assumption. -/

/-- The interactive engine configuration (`RLMConfig`), restricted to the
fields the budget claims use. -/
structure RLMConfig where
  maxIterations : Nat
  maxLLMCalls : Nat
  maxDepth : Nat
  maxErrors : Nat
  deriving DecidableEq, Repr

/-- An engine of an interactive run tree: its depth, its configuration
(`childConfig = {...this.config}` copies the parent's), and the index of its
`SharedRLMState` in the heap. -/
structure EngineRef where
  depth : Nat
  config : RLMConfig
  stateRef : Nat
  deriving DecidableEq, Repr

/-- The state of an interactive run tree: the heap of allocated shared
llm-call counters, the engines alive so far, and a ghost count of the
sub-LLM completions actually performed. -/
structure RLMWorld where
  heap : List Nat
  engines : List EngineRef
  completions : Nat
  deriving DecidableEq, Repr

/-- The initial world: one root engine at depth 0 holding a fresh counter. -/
def initWorld (cfg : RLMConfig) : RLMWorld :=
  { heap := [0], engines := [{ depth := 0, config := cfg, stateRef := 0 }], completions := 0 }

/-- Interpreter-driven events of an interactive run tree: a `llm_query`
sub-call or a `rlm_query` spawn, each issued by the engine at the given
index. -/
inductive REvent
  | subLLM (engineIdx : Nat)
  | spawnChild (engineIdx : Nat)
  deriving DecidableEq, Repr

/-- `RLMEngine.callSubLLM` (source lines 1189–1198) on an engine: reject
when the shared counter has reached `maxLLMCalls`, else increment it and
perform the completion. -/
def callSubLLM (w : RLMWorld) (e : EngineRef) : RLMWorld :=
  if w.heap.getD e.stateRef 0 ≥ e.config.maxLLMCalls then w
  else
    { w with
      heap := w.heap.set e.stateRef (w.heap.getD e.stateRef 0 + 1)
      completions := w.completions + 1 }

/-- One event of the run tree.  `spawnChild` models
`RLMEngine.spawnChildRLM` (source lines 1085–1113): at depth ≥ `maxDepth`
it degrades to a single `callSubLLM`; otherwise it creates a child engine
one level deeper with a copy of the configuration and the same
`sharedState` reference. -/
def rlmStep (w : RLMWorld) : REvent → RLMWorld
  | .subLLM i =>
    match w.engines.get? i with
    | none => w
    | some e => callSubLLM w e
  | .spawnChild i =>
    match w.engines.get? i with
    | none => w
    | some e =>
      if e.depth ≥ e.config.maxDepth then callSubLLM w e
      else
        { w with
          engines := w.engines ++
            [{ depth := e.depth + 1, config := e.config, stateRef := e.stateRef }] }

/-- An interactive run tree: the fold of its events from the initial world. -/
def runEvents (cfg : RLMConfig) (events : List REvent) : RLMWorld :=
  events.foldl rlmStep (initWorld cfg)

/-! ## Concrete fixtures

Small concrete runs, nodes and findings used to evaluate the definitions at
explicit inputs. -/

/-- A terminal (failed) child node of a split parent. -/
def childNodeFx : Node :=
  { run_id := "r"
    node_id := "r:root:1:a"
    parent_id := some "r:root"
    depth := 1
    scope_type := .dir
    scope_paths := [["a"]]
    objective := "o"
    status := .failed
    decision := .leaf
    decision_reason := none
    child_ids := []
    confidence := none
    budgets := { max_depth := 4, remaining_llm_calls := 10, remaining_tokens := 9000,
                 deadline_epoch_ms := 99 }
    metrics := none
    created_at := "t0"
    updated_at := "t0" }

/-- A running split parent whose only child is `childNodeFx`. -/
def parentNodeFx : Node :=
  { childNodeFx with
    node_id := "r:root"
    parent_id := none
    depth := 0
    scope_paths := [[]]
    status := .running
    decision := .split
    child_ids := ["r:root:1:a"] }

/-- The failed child's persisted result, carrying one artifact. -/
def childResultFx : ResultRec :=
  { run_id := "r"
    node_id := "r:root:1:a"
    status := .failed
    summary := "s"
    findings := []
    artifacts := [{ kind := "wiki_node", path := "artifacts/wiki/nodes/a.md" }]
    aggregation_notes := none
    created_at := "t0" }

/-- A queued node, used to exercise cancellation. -/
def queuedNodeFx : Node := { childNodeFx with node_id := "r:root:2:b", status := .queued }

/-- A run document fixture in the `cancelled` state. -/
def cancelledRunFx : Run :=
  { run_id := "r"
    objective := "o"
    mode := .review
    status := .cancelled
    root_node_id := "r:root"
    config := { max_depth := 4, max_llm_calls := 300, max_tokens := 500000,
                max_wall_clock_ms := 1800000, scheduler := .bfs }
    progress := { nodes_total := 0, nodes_completed := 0, nodes_failed := 0,
                  active_nodes := 0, max_depth_seen := 0 }
    output_index := []
    checkpoint := { last_event_offset := 0, updated_at := "t0" }
    created_at := "t0"
    updated_at := "t0"
    completed_at := some "t0" }

/-- The same run fixture in the `running` state. -/
def runningRunFx : Run := { cancelledRunFx with status := .running, completed_at := none }

/-- An evidence pointer shared by the colliding findings below. -/
def evidenceFx : Evidence := { path := "src/x.ts", line_start := 3, line_end := 3, quote := none }

/-- A high-severity, low-confidence finding (confidence 1/2, written with
`mkRat` so the kernel can evaluate comparisons). -/
def findingHighFx : Finding :=
  { id := "1"
    domain := "security"
    severity := .high
    confidence := mkRat 1 2
    title := "T"
    description := ""
    suggested_fix := none
    evidence := [evidenceFx] }

/-- A low-severity, high-confidence finding (confidence 9/10) with the same
dedupe key. -/
def findingLowFx : Finding :=
  { findingHighFx with id := "2", severity := .low, confidence := mkRat 9 10 }

/-- A directory holding one subdirectory and one plain file: the smallest
scope on which the split planner drops an enumerated file. -/
def fsMixedFx : FSEntry := .dir [("a", .dir []), ("f", .file 1)]

/-- A directory of three leaf files, used to drive a file-group split. -/
def fsFilesFx : FSEntry := .dir [("x", .file 1), ("y", .file 2), ("z", .file 3)]

/-- A file whose content matches all three review patterns. -/
def scanContentFx : List Char := ("eval(" ++ "\n" ++ "TODO" ++ "\n" ++ "any").toList

/-- Nine small files that each yield three findings. -/
def scanFilesFx : List ScanFile :=
  (List.range 9).map (fun i => { path := "f" ++ toString i, size := 10, content := scanContentFx })

/-- A running parent whose scope is the root of `fsFilesFx`, used to drive a
file-group split. -/
def splitParentFx : Node :=
  { childNodeFx with node_id := "r:root", parent_id := none, depth := 0,
                     status := .running, scope_paths := [[]] }

/-! ## Theorems -/

/-- C4: For every run and node, the decision engine returns the first
applicable reason in the fixed order deadline_exceeded ⇒ leaf, then
max_depth_reached ⇒ leaf, then llm_budget_exhausted ⇒ leaf, then
token_budget_exhausted ⇒ leaf, then scope_too_large (fileCount > 12 or
totalBytes > 2,000,000 in review mode, 16 / 3,000,000 otherwise) ⇒ split,
else scope_small_enough ⇒ leaf. -/
theorem decideNode_first_applicable_reason (mode : Mode) (maxDepth : Nat) (now : Int)
    (depth : Nat) (budgets : NodeBudgets) (metrics : ScopeMetrics) :
    decideNode mode maxDepth now depth budgets metrics =
      decideNodeSpec mode maxDepth now depth budgets metrics := by
  cases mode <;>
    by_cases h1 : now > budgets.deadline_epoch_ms <;>
    by_cases h2 : depth ≥ maxDepth <;>
    by_cases h3 : budgets.remaining_llm_calls ≤ 0 <;>
    by_cases h4 : budgets.remaining_tokens ≤ 0 <;>
    simp [decideNode, decideNodeSpec, firstApplicable, tFiles, tBytes, h1, h2, h3, h4]

/-- C10: `getStatus` rewrites the persisted run: it recomputes `progress`
from the latest node snapshots, refreshes `checkpoint.last_event_offset`
from the queue event count, stamps `checkpoint.updated_at` and
`updated_at`, and leaves `run_id`, `objective`, `mode`, `status`,
`root_node_id`, `config`, `output_index`, `created_at` and `completed_at`
unchanged. -/
theorem getStatus_overwrites_run (run : Run) (nodes : List Node)
    (queueEvents : List QueueEvent) (now : String) :
    (getStatusRun run nodes queueEvents now).progress.nodes_total = nodes.length ∧
    (getStatusRun run nodes queueEvents now).progress.nodes_completed =
      nodes.countP (fun n => decide (n.status = .completed)) ∧
    (getStatusRun run nodes queueEvents now).progress.nodes_failed =
      nodes.countP (fun n => decide (n.status = .failed)) ∧
    (getStatusRun run nodes queueEvents now).progress.active_nodes =
      nodes.countP (fun n => decide (n.status = .running)) ∧
    (getStatusRun run nodes queueEvents now).progress.max_depth_seen =
      nodes.foldl (fun m n => max m n.depth) 0 ∧
    (getStatusRun run nodes queueEvents now).checkpoint.last_event_offset =
      queueEvents.length ∧
    (getStatusRun run nodes queueEvents now).checkpoint.updated_at = now ∧
    (getStatusRun run nodes queueEvents now).updated_at = now ∧
    (getStatusRun run nodes queueEvents now).run_id = run.run_id ∧
    (getStatusRun run nodes queueEvents now).objective = run.objective ∧
    (getStatusRun run nodes queueEvents now).mode = run.mode ∧
    (getStatusRun run nodes queueEvents now).status = run.status ∧
    (getStatusRun run nodes queueEvents now).root_node_id = run.root_node_id ∧
    (getStatusRun run nodes queueEvents now).config = run.config ∧
    (getStatusRun run nodes queueEvents now).output_index = run.output_index ∧
    (getStatusRun run nodes queueEvents now).created_at = run.created_at ∧
    (getStatusRun run nodes queueEvents now).completed_at = run.completed_at := by
  simp [getStatusRun, List.countP_eq_length_filter]

/-- The budget invariant of an interactive run tree: the heap is the single
shared counter holding the exact number of completions performed, every
engine alive references that counter and carries the root configuration,
and the count never exceeds `maxLLMCalls`. -/
def budgetInv (cfg : RLMConfig) (w : RLMWorld) : Prop :=
  w.heap = [w.completions] ∧ w.completions ≤ cfg.maxLLMCalls ∧
    ∀ e ∈ w.engines, e.stateRef = 0 ∧ e.config = cfg

theorem callSubLLM_inv {cfg : RLMConfig} {w : RLMWorld} {e : EngineRef}
    (hw : budgetInv cfg w) (he : e ∈ w.engines) : budgetInv cfg (callSubLLM w e) := by
  obtain ⟨hheap, hle, hengines⟩ := hw
  obtain ⟨href, hcfg⟩ := hengines e he
  unfold callSubLLM
  rw [hheap, href, hcfg]
  split
  · exact ⟨hheap, hle, hengines⟩
  · rename_i hlt
    simp only [List.getD_cons_zero, not_le] at hlt
    refine ⟨by simp, ?_, hengines⟩
    show w.completions + 1 ≤ cfg.maxLLMCalls
    omega

theorem rlmStep_inv {cfg : RLMConfig} {w : RLMWorld} (ev : REvent)
    (hw : budgetInv cfg w) : budgetInv cfg (rlmStep w ev) := by
  cases ev with
  | subLLM i =>
    simp only [rlmStep]
    split
    · exact hw
    · rename_i e hg
      exact callSubLLM_inv hw (List.get?_mem hg)
  | spawnChild i =>
    simp only [rlmStep]
    split
    · exact hw
    · rename_i e hg
      have he := List.get?_mem hg
      obtain ⟨hheap, hle, hengines⟩ := hw
      obtain ⟨href, hcfg⟩ := hengines e he
      split
      · exact callSubLLM_inv ⟨hheap, hle, hengines⟩ he
      · refine ⟨hheap, hle, ?_⟩
        intro e' he'
        simp only [List.mem_append, List.mem_singleton] at he'
        rcases he' with he' | he'
        · exact hengines e' he'
        · subst he'
          exact ⟨href, hcfg⟩

theorem foldl_rlmStep_inv (cfg : RLMConfig) (events : List REvent) :
    ∀ w, budgetInv cfg w → budgetInv cfg (events.foldl rlmStep w) := by
  induction events with
  | nil => exact fun _ hw => hw
  | cons ev rest ih => exact fun w hw => ih (rlmStep w ev) (rlmStep_inv ev hw)

theorem runEvents_inv (cfg : RLMConfig) (events : List REvent) :
    budgetInv cfg (runEvents cfg events) := by
  refine foldl_rlmStep_inv cfg events (initWorld cfg) ⟨rfl, Nat.zero_le _, ?_⟩
  intro e he
  simp only [initWorld, List.mem_singleton] at he
  subst he
  exact ⟨rfl, rfl⟩

/-- C7: Across an interactive run tree, the number of sub-LLM completions
performed via `llm_query` never exceeds `maxLLMCalls`: every engine spawned
in the tree references the root's shared counter (heap cell 0), that single
counter equals the number of completions performed, and it never passes the
limit. -/
theorem rlm_shared_budget_bound (cfg : RLMConfig) (events : List REvent) :
    (runEvents cfg events).completions ≤ cfg.maxLLMCalls ∧
    (runEvents cfg events).heap = [(runEvents cfg events).completions] ∧
    ∀ e ∈ (runEvents cfg events).engines, e.stateRef = 0 ∧ e.config = cfg := by
  obtain ⟨h1, h2, h3⟩ := runEvents_inv cfg events
  exact ⟨h2, h1, h3⟩

/-- Clamping the dividend at zero before a floor division by a positive
divisor commutes with clamping the quotient. -/
theorem max_zero_fdiv_comm (q k : Int) (hk : 0 < k) :
    max 0 ((max 0 q).fdiv k) = max 0 (q.fdiv k) := by
  rcases le_or_lt 0 q with h | h
  · rw [max_eq_right h]
  · rw [max_eq_left (le_of_lt h), Int.zero_fdiv, max_self]
    symm
    rw [max_eq_left]
    rw [Int.fdiv_eq_ediv _ (le_of_lt hk)]
    exact le_of_lt (Int.ediv_neg' h hk)

/-- C6: For every split producing k ≥ 1 children, each child is created with
`remaining_llm_calls = max(0, ⌊(parent.remaining_llm_calls − 1) / k⌋)`,
`remaining_tokens = max(0, ⌊(parent.remaining_tokens − 4000) / k⌋)`, the
parent's deadline verbatim, depth one deeper, status `queued`, and
non-negative remaining budgets. -/
theorem splitNode_child_budgets (runId : String) (fs : FSEntry) (node : Node) (now : String)
    (hk : splitChildScopes (splitEnumOf fs node.scope_paths) ≠ []) :
    ∀ c ∈ splitNodeChildren runId fs node now,
      c.budgets.remaining_llm_calls =
        max 0 ((node.budgets.remaining_llm_calls - 1).fdiv
          ((splitChildScopes (splitEnumOf fs node.scope_paths)).length : Int)) ∧
      c.budgets.remaining_tokens =
        max 0 ((node.budgets.remaining_tokens - 4000).fdiv
          ((splitChildScopes (splitEnumOf fs node.scope_paths)).length : Int)) ∧
      c.budgets.deadline_epoch_ms = node.budgets.deadline_epoch_ms ∧
      c.budgets.max_depth = node.budgets.max_depth ∧
      c.depth = node.depth + 1 ∧
      c.status = .queued ∧
      0 ≤ c.budgets.remaining_llm_calls ∧ 0 ≤ c.budgets.remaining_tokens := by
  intro c hc
  have hpos : 0 < (splitChildScopes (splitEnumOf fs node.scope_paths)).length :=
    List.length_pos.mpr hk
  have hposZ : (0 : Int) < ((splitChildScopes (splitEnumOf fs node.scope_paths)).length : Int) :=
    Int.natCast_pos.mpr hpos
  unfold splitNodeChildren at hc
  simp only [List.mem_map, hpos, if_pos] at hc
  obtain ⟨⟨i, scope⟩, _, rfl⟩ := hc
  refine ⟨?_, ?_, rfl, rfl, rfl, rfl, le_max_left _ _, le_max_left _ _⟩
  · simp only [hpos, if_pos]
    exact max_zero_fdiv_comm _ _ hposZ
  · simp only [hpos, if_pos]
    exact max_zero_fdiv_comm _ _ hposZ

/-- C8 counterexample: the claim says `cancelRun` raises a typed failure for
every run in a terminal state, `cancelled` included; but on a run whose
status is `cancelled` the code's guard (`completed`/`failed` only) passes
and the cancellation succeeds. -/
theorem cancelRun_on_cancelled_run_succeeds :
    cancelledRunFx.status = .cancelled ∧
    (cancelRun cancelledRunFx [] "t2").isOk = true := by decide

/-- C8 amended: `cancelRun` raises a typed failure exactly when the run is
`completed` or `failed`; from any other state — `running` or already
`cancelled` — it sets the run `cancelled`, terminalizes every queued or
running node to `cancelled` (leaving other nodes unchanged), and emits a
`run_cancelled` queue event. -/
theorem cancelRun_behaviour (run : Run) (nodes : List Node) (now : String) :
    ((run.status = .completed ∨ run.status = .failed) →
      cancelRun run nodes now = .error "Cannot cancel run in terminal state") ∧
    (run.status ≠ .completed → run.status ≠ .failed →
      ∃ run' nodes' ev, cancelRun run nodes now = .ok (run', nodes', ev) ∧
        run'.status = .cancelled ∧
        ev.event = "run_cancelled" ∧ ev.node_id = run.root_node_id ∧
        nodes'.length = nodes.length ∧
        (∀ (i : Nat) (h : i < nodes.length) (h' : i < nodes'.length),
          ((nodes[i].status = .queued ∨ nodes[i].status = .running) →
            nodes'[i] = { nodes[i] with status := .cancelled, updated_at := now }) ∧
          (¬ (nodes[i].status = .queued ∨ nodes[i].status = .running) →
            nodes'[i] = nodes[i])) ∧
        ∀ n ∈ nodes', n.status ≠ .queued ∧ n.status ≠ .running) := by
  constructor
  · intro h
    unfold cancelRun
    rw [if_pos h]
  · intro h1 h2
    unfold cancelRun
    rw [if_neg (by tauto)]
    refine ⟨_, _, _, rfl, rfl, rfl, rfl, List.length_map _ _, ?_, ?_⟩
    · intro i h h'
      constructor
      · intro hqr
        rw [List.getElem_map]
        rw [if_pos hqr]
      · intro hqr
        rw [List.getElem_map]
        rw [if_neg hqr]
    · intro n hn
      obtain ⟨m, hm, rfl⟩ := List.mem_map.1 hn
      by_cases hqr : m.status = .queued ∨ m.status = .running
      · rw [if_pos hqr]
        exact ⟨by simp, by simp⟩
      · rw [if_neg hqr]
        push_neg at hqr
        exact ⟨hqr.1, hqr.2⟩

/-- C8 witness: cancelling the running fixture run with one queued node. -/
theorem cancelRun_behaviour_witness :
    ∃ run' nodes' ev, cancelRun runningRunFx [queuedNodeFx] "t2" = .ok (run', nodes', ev) ∧
      run'.status = .cancelled ∧
      ev.event = "run_cancelled" ∧ ev.node_id = runningRunFx.root_node_id ∧
      nodes'.length = [queuedNodeFx].length ∧
      (∀ (i : Nat) (h : i < [queuedNodeFx].length) (h' : i < nodes'.length),
        (([queuedNodeFx][i].status = .queued ∨ [queuedNodeFx][i].status = .running) →
          nodes'[i] = { [queuedNodeFx][i] with status := .cancelled, updated_at := "t2" }) ∧
        (¬ ([queuedNodeFx][i].status = .queued ∨ [queuedNodeFx][i].status = .running) →
          nodes'[i] = [queuedNodeFx][i])) ∧
      ∀ n ∈ nodes', n.status ≠ .queued ∧ n.status ≠ .running :=
  (cancelRun_behaviour runningRunFx [queuedNodeFx] "t2").2 (by decide) (by decide)

/-- C1 counterexample: a ready split parent whose single child failed.  The
claim says the parent Result's status is then `failed`; the aggregation pass
emits a Result with status `partial` (the `failed` status is applied to the
parent *node*, never to the Result). -/
theorem aggregate_all_failed_children_result_is_partial :
    childNodeFx.status = .failed ∧
    parentNodeFx.child_ids = [childNodeFx.node_id] ∧
    (aggregateReadySplitParents "r" [parentNodeFx, childNodeFx]
        [("r:root:1:a", childResultFx)] "t1").map (fun e => e.1.status) =
      [.partialRes] := by decide

/-- The emitted Result status of one aggregation: `partial` when any child
is failed/cancelled, else `completed`. -/
theorem aggregateParent_result_status (runId : String) (parent : Node) (childNodes : List Node)
    (childResults : List ResultRec) (now : String) :
    (aggregateParent runId parent childNodes childResults now).1.status =
      (if 0 < (childNodes.filter
          (fun n => decide (n.status = .failed ∨ n.status = .cancelled))).length
        then ResultStatus.partialRes else ResultStatus.completed) := rfl

/-- The terminal status applied to the parent node by one aggregation:
`failed` when every child is failed/cancelled, else `completed`. -/
theorem aggregateParent_node_status (runId : String) (parent : Node) (childNodes : List Node)
    (childResults : List ResultRec) (now : String) :
    (aggregateParent runId parent childNodes childResults now).2.1.status =
      (if (childNodes.filter
          (fun n => decide (n.status = .failed ∨ n.status = .cancelled))).length =
          childNodes.length
        then NodeStatus.failed else NodeStatus.completed) := rfl

/-- The confidence applied to the parent node by one aggregation. -/
theorem aggregateParent_node_confidence (runId : String) (parent : Node) (childNodes : List Node)
    (childResults : List ResultRec) (now : String) :
    (aggregateParent runId parent childNodes childResults now).2.1.confidence =
      some (if 0 < (childNodes.filter
          (fun n => decide (n.status = .failed ∨ n.status = .cancelled))).length
        then (0.6 : ℚ) else 0.8) := rfl

/-- The queue event emitted by one aggregation. -/
theorem aggregateParent_event (runId : String) (parent : Node) (childNodes : List Node)
    (childResults : List ResultRec) (now : String) :
    (aggregateParent runId parent childNodes childResults now).2.2.event =
      "node_aggregated" := rfl

/-- C1 amended: for every ready split parent (split decision, running, no
result yet, non-empty `child_ids` all resolving to terminal nodes) the
aggregation pass emits one Result whose status is `partial` iff at least
one child is failed/cancelled — even when all are — and `completed`
otherwise, never `failed`; the parent *node* is terminalized to `failed`
iff every child is failed/cancelled and to `completed` otherwise, with
confidence 0.6 iff the result is partial and 0.8 otherwise, and a
`node_aggregated` queue event is emitted. -/
theorem aggregation_pass_emission (runId : String) (nodes : List Node)
    (resultMap : List (String × ResultRec)) (now : String) (parent : Node)
    (hmem : parent ∈ nodes) (hready : aggregationReady nodes resultMap parent = true) :
    aggregateParent runId parent (resolveChildNodes nodes parent)
        ((resolveChildNodes nodes parent).filterMap (fun n => resultMap.lookup n.node_id)) now ∈
      aggregateReadySplitParents runId nodes resultMap now ∧
    ((aggregateParent runId parent (resolveChildNodes nodes parent)
        ((resolveChildNodes nodes parent).filterMap
          (fun n => resultMap.lookup n.node_id)) now).1.status = .partialRes ↔
      0 < ((resolveChildNodes nodes parent).filter
        (fun n => decide (n.status = .failed ∨ n.status = .cancelled))).length) ∧
    ((aggregateParent runId parent (resolveChildNodes nodes parent)
        ((resolveChildNodes nodes parent).filterMap
          (fun n => resultMap.lookup n.node_id)) now).1.status = .completed ↔
      ((resolveChildNodes nodes parent).filter
        (fun n => decide (n.status = .failed ∨ n.status = .cancelled))).length = 0) ∧
    ((aggregateParent runId parent (resolveChildNodes nodes parent)
        ((resolveChildNodes nodes parent).filterMap
          (fun n => resultMap.lookup n.node_id)) now).1.status ≠ .failed) ∧
    ((aggregateParent runId parent (resolveChildNodes nodes parent)
        ((resolveChildNodes nodes parent).filterMap
          (fun n => resultMap.lookup n.node_id)) now).2.1.status = .failed ↔
      ((resolveChildNodes nodes parent).filter
        (fun n => decide (n.status = .failed ∨ n.status = .cancelled))).length =
        (resolveChildNodes nodes parent).length) ∧
    ((aggregateParent runId parent (resolveChildNodes nodes parent)
        ((resolveChildNodes nodes parent).filterMap
          (fun n => resultMap.lookup n.node_id)) now).2.1.status = .completed ↔
      ((resolveChildNodes nodes parent).filter
        (fun n => decide (n.status = .failed ∨ n.status = .cancelled))).length ≠
        (resolveChildNodes nodes parent).length) ∧
    ((aggregateParent runId parent (resolveChildNodes nodes parent)
        ((resolveChildNodes nodes parent).filterMap
          (fun n => resultMap.lookup n.node_id)) now).2.1.confidence =
      some (if 0 < ((resolveChildNodes nodes parent).filter
          (fun n => decide (n.status = .failed ∨ n.status = .cancelled))).length
        then (0.6 : ℚ) else 0.8)) ∧
    (isTerminalNodeStatus (aggregateParent runId parent (resolveChildNodes nodes parent)
        ((resolveChildNodes nodes parent).filterMap
          (fun n => resultMap.lookup n.node_id)) now).2.1.status = true) ∧
    ((aggregateParent runId parent (resolveChildNodes nodes parent)
        ((resolveChildNodes nodes parent).filterMap
          (fun n => resultMap.lookup n.node_id)) now).2.2.event = "node_aggregated") := by
  refine ⟨?_, ?_, ?_, ?_, ?_, ?_, aggregateParent_node_confidence _ _ _ _ _, ?_,
    aggregateParent_event _ _ _ _ _⟩
  · refine List.mem_filterMap.2 ⟨parent, hmem, ?_⟩
    simp [hready]
  · rw [aggregateParent_result_status]
    split_ifs with h
    · exact iff_of_true rfl h
    · exact iff_of_false (by decide) h
  · rw [aggregateParent_result_status]
    split_ifs with h
    · exact iff_of_false (by decide) (by omega)
    · exact iff_of_true rfl (by omega)
  · rw [aggregateParent_result_status]
    split_ifs <;> decide
  · rw [aggregateParent_node_status]
    split_ifs with h
    · exact iff_of_true rfl h
    · exact iff_of_false (by decide) h
  · rw [aggregateParent_node_status]
    split_ifs with h
    · exact iff_of_false (by decide) (not_not_intro h)
    · exact iff_of_true rfl h
  · rw [aggregateParent_node_status]
    split_ifs <;> rfl

/-- C1 witness: the amended theorem applied to the one-failed-child
fixture, where the emitted Result's status is partial and the parent node
is terminalized as failed. -/
theorem aggregation_pass_emission_witness :
    (aggregateParent "r" parentNodeFx
        (resolveChildNodes [parentNodeFx, childNodeFx] parentNodeFx)
        ((resolveChildNodes [parentNodeFx, childNodeFx] parentNodeFx).filterMap
          (fun n => ([("r:root:1:a", childResultFx)]).lookup n.node_id)) "t1" ∈
      aggregateReadySplitParents "r" [parentNodeFx, childNodeFx]
        [("r:root:1:a", childResultFx)] "t1") ∧
    (aggregateParent "r" parentNodeFx
        (resolveChildNodes [parentNodeFx, childNodeFx] parentNodeFx)
        ((resolveChildNodes [parentNodeFx, childNodeFx] parentNodeFx).filterMap
          (fun n => ([("r:root:1:a", childResultFx)]).lookup n.node_id)) "t1").1.status =
      .partialRes ∧
    (aggregateParent "r" parentNodeFx
        (resolveChildNodes [parentNodeFx, childNodeFx] parentNodeFx)
        ((resolveChildNodes [parentNodeFx, childNodeFx] parentNodeFx).filterMap
          (fun n => ([("r:root:1:a", childResultFx)]).lookup n.node_id)) "t1").2.1.status =
      .failed := by
  have h := aggregation_pass_emission "r" [parentNodeFx, childNodeFx]
    [("r:root:1:a", childResultFx)] "t1" parentNodeFx (by decide) (by decide)
  exact ⟨h.1, h.2.1.mpr (by decide), h.2.2.2.2.1.mpr (by decide)⟩

/-- C6 witness: splitting the three-file fixture directory yields one
file-group child with the documented budgets. -/
theorem splitNode_child_budgets_witness :
    splitChildScopes (splitEnumOf fsFilesFx splitParentFx.scope_paths) ≠ [] ∧
    ∀ c ∈ splitNodeChildren "r" fsFilesFx splitParentFx "t1",
      c.budgets.remaining_llm_calls =
        max 0 ((splitParentFx.budgets.remaining_llm_calls - 1).fdiv
          ((splitChildScopes (splitEnumOf fsFilesFx splitParentFx.scope_paths)).length : Int)) ∧
      c.budgets.remaining_tokens =
        max 0 ((splitParentFx.budgets.remaining_tokens - 4000).fdiv
          ((splitChildScopes (splitEnumOf fsFilesFx splitParentFx.scope_paths)).length : Int)) ∧
      c.budgets.deadline_epoch_ms = splitParentFx.budgets.deadline_epoch_ms ∧
      c.budgets.max_depth = splitParentFx.budgets.max_depth ∧
      c.depth = splitParentFx.depth + 1 ∧
      c.status = .queued ∧
      0 ≤ c.budgets.remaining_llm_calls ∧ 0 ≤ c.budgets.remaining_tokens :=
  ⟨by decide, splitNode_child_budgets "r" fsFilesFx splitParentFx "t1" (by decide)⟩

/-- The key-map invariant of the artifact index construction: keys are
pairwise distinct and each entry's key is its artifact's key. -/
def artifactMapInv (m : List (String × Artifact)) : Prop :=
  (m.map Prod.fst).Nodup ∧ ∀ p ∈ m, p.1 = artifactKey p.2

theorem lookup_none_not_mem_keys {β : Type} (m : List (String × β)) (k : String)
    (h : m.lookup k = none) : k ∉ m.map Prod.fst := by
  induction m with
  | nil => simp
  | cons p rest ih =>
    by_cases hk : (k == p.1) = true
    · simp [List.lookup, hk] at h
    · simp only [List.lookup, hk] at h
      simp only [List.map_cons, List.mem_cons]
      rintro (h1 | h1)
      · exact hk (by simp [h1])
      · exact ih h h1

theorem artifactUpsert_inv (m : List (String × Artifact)) (a : Artifact)
    (hm : artifactMapInv m) : artifactMapInv (artifactUpsert m a) := by
  obtain ⟨hkeys, hvals⟩ := hm
  unfold artifactUpsert
  split
  · constructor
    · have : (m.map (fun p => if p.1 == artifactKey a then (p.1, a) else p)).map Prod.fst =
          m.map Prod.fst := by
        rw [List.map_map]
        refine List.map_congr_left ?_
        intro p _
        simp only [Function.comp_apply]
        split <;> rfl
      rw [this]
      exact hkeys
    · intro p hp
      obtain ⟨q, hq, hfq⟩ := List.mem_map.1 hp
      by_cases hqk : q.1 == artifactKey a
      · rw [if_pos hqk] at hfq
        subst hfq
        simpa using eq_of_beq hqk
      · rw [if_neg hqk] at hfq
        subst hfq
        exact hvals q hq
  · rename_i hnone
    constructor
    · rw [List.map_append]
      refine List.Nodup.append hkeys (by simp) ?_
      intro k hk1 hk2
      simp only [List.map_cons, List.map_nil, List.mem_singleton] at hk2
      subst hk2
      exact lookup_none_not_mem_keys m (artifactKey a)
        (Option.not_isSome_iff_eq_none.mp hnone) hk1
    · intro p hp
      rcases List.mem_append.1 hp with h | h
      · exact hvals p h
      · simp only [List.mem_singleton] at h
        subst h
        rfl

theorem foldl_artifactUpsert_inv (l : List Artifact) :
    ∀ m, artifactMapInv m → artifactMapInv (l.foldl artifactUpsert m) := by
  induction l with
  | nil => exact fun _ hm => hm
  | cons a rest ih => exact fun m hm => ih (artifactUpsert m a) (artifactUpsert_inv m a hm)

theorem artifactMapInv_values_deduped (m : List (String × Artifact))
    (hm : artifactMapInv m) : artifactsDeduped (m.map Prod.snd) := by
  obtain ⟨hkeys, hvals⟩ := hm
  unfold artifactsDeduped
  rw [List.pairwise_map]
  have hpair : m.Pairwise (fun p q => p.1 ≠ q.1) := List.pairwise_map.1 hkeys
  refine hpair.imp_of_mem ?_
  intro p q hp hq hne ⟨hkind, hpath⟩
  apply hne
  rw [hvals p hp, hvals q hq]
  unfold artifactKey
  rw [hkind, hpath]

theorem artifactsDeduped_of_perm {l l' : List Artifact} (hperm : l.Perm l')
    (h : artifactsDeduped l) : artifactsDeduped l' := by
  unfold artifactsDeduped at h ⊢
  exact (hperm.pairwise_iff (fun h ⟨h1, h2⟩ => h ⟨h1.symm, h2.symm⟩)).1 h

/-- C3 amended: the `output_index` rewrites of `synthesizeRun` and
`registerArtifacts` leave no two entries with the same `(kind, path)`; the
scheduler step's refresh concatenates the artifact lists of all latest
results without dedupe. -/
theorem output_index_dedupe (existing incoming synthesized : List Artifact) :
    artifactsDeduped (registerArtifactsIndex existing incoming) ∧
    artifactsDeduped (synthesizeRunIndex synthesized existing) := by
  constructor
  · refine artifactsDeduped_of_perm (List.mergeSort_perm _ _).symm ?_
    exact artifactMapInv_values_deduped _
      (foldl_artifactUpsert_inv incoming _
        (foldl_artifactUpsert_inv existing [] ⟨List.nodup_nil, by simp⟩))
  · refine artifactsDeduped_of_perm (List.mergeSort_perm _ _).symm ?_
    exact artifactMapInv_values_deduped _
      (foldl_artifactUpsert_inv existing _
        (foldl_artifactUpsert_inv synthesized [] ⟨List.nodup_nil, by simp⟩))

/-- C3 counterexample: after an aggregation copies a child's artifacts into
the parent Result, the scheduler step's `output_index` refresh emits the
same `(kind, path)` entry twice, so it is not deduped. -/
theorem stepOutputIndex_not_deduped :
    stepOutputIndex [childResultFx,
        (aggregateParent "r" parentNodeFx [childNodeFx] [childResultFx] "t1").1] =
      [{ kind := "wiki_node", path := "artifacts/wiki/nodes/a.md" },
       { kind := "wiki_node", path := "artifacts/wiki/nodes/a.md" }] ∧
    ¬ artifactsDeduped (stepOutputIndex [childResultFx,
        (aggregateParent "r" parentNodeFx [childNodeFx] [childResultFx] "t1").1]) := by
  constructor
  · decide
  · unfold artifactsDeduped
    decide

/-- The descending (severity rank, confidence) ordering as a proposition. -/
def rankedBeforeP (a b : Finding) : Prop :=
  severityRank b.severity < severityRank a.severity ∨
    (severityRank a.severity = severityRank b.severity ∧ b.confidence ≤ a.confidence)

theorem rankedBefore_eq_true_iff (a b : Finding) :
    rankedBefore a b = true ↔ rankedBeforeP a b := by
  unfold rankedBefore rankedBeforeP
  exact decide_eq_true_iff

theorem rankedBefore_trans (a b c : Finding) (hab : rankedBefore a b = true)
    (hbc : rankedBefore b c = true) : rankedBefore a c = true := by
  rw [rankedBefore_eq_true_iff] at hab hbc ⊢
  rcases hab with h1 | ⟨h1, h1c⟩ <;> rcases hbc with h2 | ⟨h2, h2c⟩
  · exact Or.inl (lt_trans h2 h1)
  · exact Or.inl (by omega)
  · exact Or.inl (by omega)
  · exact Or.inr ⟨by omega, le_trans h2c h1c⟩

theorem rankedBefore_total (a b : Finding) :
    (rankedBefore a b || rankedBefore b a) = true := by
  rcases lt_trichotomy (severityRank a.severity) (severityRank b.severity) with h | h | h
  · have : rankedBefore b a = true := (rankedBefore_eq_true_iff b a).2 (Or.inl h)
    simp [this]
  · rcases le_total a.confidence b.confidence with hc | hc
    · have : rankedBefore b a = true :=
        (rankedBefore_eq_true_iff b a).2 (Or.inr ⟨h.symm, hc⟩)
      simp [this]
    · have : rankedBefore a b = true :=
        (rankedBefore_eq_true_iff a b).2 (Or.inr ⟨h, hc⟩)
      simp [this]
  · have : rankedBefore a b = true := (rankedBefore_eq_true_iff a b).2 (Or.inl h)
    simp [this]

/-- C2 amended: when two findings collide on the dedupe key, the later one
replaces the retained one exactly when it has strictly higher severity
rank, or — even with a strictly *lower* severity — strictly higher
confidence; the deduped list is sorted by descending severity rank and,
within a rank, by descending confidence. -/
theorem dedupe_and_rank_behaviour :
    (∀ f1 f2 : Finding, dedupeKey f1 = dedupeKey f2 →
      dedupeAndRankFindings [f1, f2] =
        [if severityRank f2.severity > severityRank f1.severity ∨
            (¬ severityRank f2.severity > severityRank f1.severity ∧
              f2.confidence > f1.confidence)
          then f2 else f1]) ∧
    (∀ findings : List Finding,
      (dedupeAndRankFindings findings).Pairwise rankedBeforeP) := by
  constructor
  · intro f1 f2 hkey
    have h2 : List.lookup (dedupeKey f2) [(dedupeKey f1, f1)] = some f1 := by
      simp [List.lookup, hkey]
    have h4 : dedupeInsert [(dedupeKey f1, f1)] f2 =
        if severityRank f2.severity > severityRank f1.severity ∨
            (¬ severityRank f2.severity > severityRank f1.severity ∧
              f2.confidence > f1.confidence)
          then [(dedupeKey f1, f2)] else [(dedupeKey f1, f1)] := by
      simp only [dedupeInsert, h2]
      split_ifs with h
      · simp [hkey]
      · rfl
    have h5 : dedupeAndRankFindings [f1, f2] =
        ((dedupeInsert (dedupeInsert [] f1) f2).map Prod.snd).mergeSort rankedBefore := rfl
    rw [h5]
    have h1 : dedupeInsert [] f1 = [(dedupeKey f1, f1)] := rfl
    rw [h1, h4]
    split_ifs with h
    · exact List.mergeSort_singleton f2
    · exact List.mergeSort_singleton f1
  · intro findings
    have hsorted := @List.sorted_mergeSort Finding rankedBefore rankedBefore_trans
      rankedBefore_total ((findings.foldl dedupeInsert []).map Prod.snd)
    exact hsorted.imp (fun h => (rankedBefore_eq_true_iff _ _).1 h)

/-- C2 witness: the amended pair rule applied to the colliding fixture
findings. -/
theorem dedupe_and_rank_behaviour_witness :
    dedupeAndRankFindings [findingHighFx, findingLowFx] =
      [if severityRank findingLowFx.severity > severityRank findingHighFx.severity ∨
          (¬ severityRank findingLowFx.severity > severityRank findingHighFx.severity ∧
            findingLowFx.confidence > findingHighFx.confidence)
        then findingLowFx else findingHighFx] :=
  dedupe_and_rank_behaviour.1 findingHighFx findingLowFx (by decide)

/-- C2 counterexample: two findings with the same dedupe key where the first
has strictly higher severity but lower confidence; the claim says the
higher-severity entry is retained, but the code retains the later,
lower-severity, higher-confidence one. -/
theorem dedupe_retains_lower_severity :
    dedupeKey findingHighFx = dedupeKey findingLowFx ∧
    severityRank findingHighFx.severity > severityRank findingLowFx.severity ∧
    findingLowFx ≠ findingHighFx ∧
    dedupeAndRankFindings [findingHighFx, findingLowFx] = [findingLowFx] := by
  refine ⟨by decide, by decide, by decide, ?_⟩
  rw [dedupe_and_rank_behaviour.1 findingHighFx findingLowFx (by decide)]
  rw [if_pos]
  right
  exact ⟨by decide, by decide⟩

/-- C9 counterexample: nine small files that each match all three review
patterns yield 27 findings — the ≥25 stop check only runs after a whole
file has been scanned, so the cap overshoots. -/
theorem scanReviewFindings_27_findings :
    (scanReviewFindings .review "n" scanFilesFx).length = 27 := by decide

/-- Each file contributes at most one finding per pattern check. -/
theorem scanFileChecks_length_le (nodeId relPath : String) (content : List Char) :
    ∀ (checks : List ReviewCheck) (base : Nat),
      (scanFileChecks nodeId relPath content base checks).length ≤ checks.length := by
  intro checks
  induction checks with
  | nil => intro base; simp [scanFileChecks]
  | cons ch rest ih =>
    intro base
    unfold scanFileChecks
    split
    · exact le_trans (ih base) (by simp)
    · simpa using ih (base + 1)

/-- Every finding a file contributes points at that file's path. -/
theorem scanFileChecks_evidence (nodeId relPath : String) (content : List Char) :
    ∀ (checks : List ReviewCheck) (base : Nat),
      ∀ f ∈ scanFileChecks nodeId relPath content base checks,
        f.evidence.map (fun e => e.path) = [relPath] := by
  intro checks
  induction checks with
  | nil => intro base f hf; simp [scanFileChecks] at hf
  | cons ch rest ih =>
    intro base f hf
    unfold scanFileChecks at hf
    split at hf
    · exact ih base f hf
    · rcases List.mem_cons.1 hf with hf | hf
      · subst hf; rfl
      · exact ih (base + 1) f hf

/-- The file loop never passes 27 findings when entered with at most 24. -/
theorem scanFilesLoop_length_le (nodeId : String) :
    ∀ (files : List ScanFile) (acc : List Finding), acc.length ≤ 24 →
      (scanFilesLoop nodeId files acc).length ≤ 27 := by
  intro files
  induction files with
  | nil => intro acc hacc; simpa [scanFilesLoop] using le_trans hacc (by omega)
  | cons f rest ih =>
    intro acc hacc
    unfold scanFilesLoop
    split
    · exact ih acc hacc
    · have hlen : (acc ++ scanFileChecks nodeId f.path f.content acc.length reviewChecks).length ≤
          27 := by
        rw [List.length_append]
        have h3 := scanFileChecks_length_le nodeId f.path f.content reviewChecks acc.length
        have h4 : reviewChecks.length = 3 := rfl
        omega
      split
      · exact hlen
      · rename_i hlt
        exact ih _ (by omega)

/-- Every finding the loop emits was already accumulated or comes from a
scanned (not skipped) file of the list. -/
theorem scanFilesLoop_provenance (nodeId : String) :
    ∀ (files : List ScanFile) (acc : List Finding) (f : Finding),
      f ∈ scanFilesLoop nodeId files acc →
      f ∈ acc ∨ ∃ sf ∈ files, sf.size ≤ 256000 ∧
        f.evidence.map (fun e => e.path) = [sf.path] := by
  intro files
  induction files with
  | nil => intro acc f hf; exact Or.inl (by simpa [scanFilesLoop] using hf)
  | cons hd rest ih =>
    intro acc f hf
    unfold scanFilesLoop at hf
    split at hf
    · rcases ih acc f hf with h | ⟨sf, hsf, hsz, hev⟩
      · exact Or.inl h
      · exact Or.inr ⟨sf, List.mem_cons_of_mem _ hsf, hsz, hev⟩
    · rename_i hsize
      have hfromFile : ∀ g ∈ acc ++ scanFileChecks nodeId hd.path hd.content acc.length
          reviewChecks, g ∈ acc ∨ (hd.size ≤ 256000 ∧
            g.evidence.map (fun e => e.path) = [hd.path]) := by
        intro g hg
        rcases List.mem_append.1 hg with hg | hg
        · exact Or.inl hg
        · exact Or.inr ⟨by omega, scanFileChecks_evidence nodeId hd.path hd.content
            reviewChecks acc.length g hg⟩
      split at hf
      · rcases hfromFile f hf with h | ⟨hsz, hev⟩
        · exact Or.inl h
        · exact Or.inr ⟨hd, List.mem_cons_self _ _, hsz, hev⟩
      · rcases ih _ f hf with h | ⟨sf, hsf, hsz, hev⟩
        · rcases hfromFile f h with h2 | ⟨hsz, hev⟩
          · exact Or.inl h2
          · exact Or.inr ⟨hd, List.mem_cons_self _ _, hsz, hev⟩
        · exact Or.inr ⟨sf, List.mem_cons_of_mem _ hsf, hsz, hev⟩

/-- C9 amended: the review pattern scan inspects at most the first 40
sampled files and skips any file larger than 256,000 bytes (so in
particular any file larger than 256 KiB); it stops only after the file
that brings the count to 25, so it emits at most 27 findings per node
(three patterns may land on top of 24 accumulated findings), not 25. -/
theorem scanReviewFindings_bounds (mode : Mode) (nodeId : String) (files : List ScanFile) :
    scanReviewFindings mode nodeId files = scanReviewFindings mode nodeId (files.take 40) ∧
    (scanReviewFindings mode nodeId files).length ≤ 27 ∧
    ∀ f ∈ scanReviewFindings mode nodeId files, ∃ sf ∈ files.take 40,
      sf.size ≤ 256000 ∧ f.evidence.map (fun e => e.path) = [sf.path] := by
  refine ⟨?_, ?_, ?_⟩
  · unfold scanReviewFindings
    split
    · rfl
    · have h1 : files.take (min 40 files.length) = files.take 40 :=
        List.take_eq_take.2 (by omega)
      have h2 : (files.take 40).take (min 40 (files.take 40).length) = files.take 40 := by
        rw [List.take_take]
        refine List.take_eq_take.2 ?_
        simp only [List.length_take]
        omega
      rw [h1, h2]
  · unfold scanReviewFindings
    split
    · simp
    · exact scanFilesLoop_length_le nodeId _ [] (by simp)
  · intro f hf
    unfold scanReviewFindings at hf
    split at hf
    · simp at hf
    · rcases scanFilesLoop_provenance nodeId _ [] f hf with h | ⟨sf, hsf, hsz, hev⟩
      · simp at h
      · have h1 : files.take (min 40 files.length) = files.take 40 :=
          List.take_eq_take.2 (by omega)
        rw [h1] at hsf
        exact ⟨sf, hsf, hsz, hev⟩

/-- Characterization of one directory's enumeration pass: it appends the
subdirectory paths and file paths of the entries, in order. -/
theorem enumEntries_eq (p : FilePath') (entries : List (String × FSEntry)) :
    ∀ acc : SplitEnum, enumEntries p acc entries =
      { dirs := acc.dirs ++
          (entries.filter (fun ne => ne.2.isDir)).map (fun ne => p ++ [ne.1]),
        files := acc.files ++
          (entries.filter (fun ne => !ne.2.isDir)).map (fun ne => p ++ [ne.1]) } := by
  induction entries with
  | nil => intro acc; simp [enumEntries]
  | cons ne rest ih =>
    intro acc
    obtain ⟨name, e⟩ := ne
    cases e with
    | dir es => simp [enumEntries, FSEntry.isDir, ih]
    | file sz => simp [enumEntries, FSEntry.isDir, ih]

/-- The enumeration of a single-directory scope. -/
theorem splitEnumOf_single_dir (fs : FSEntry) (p : FilePath')
    (entries : List (String × FSEntry))
    (h : FSEntry.lookup p fs = some (.dir entries)) :
    splitEnumOf fs [p] =
      { dirs := (entries.filter (fun ne => ne.2.isDir)).map (fun ne => p ++ [ne.1]),
        files := (entries.filter (fun ne => !ne.2.isDir)).map (fun ne => p ++ [ne.1]) } := by
  unfold splitEnumOf enumForSplit
  rw [h]
  show enumForSplit fs (enumEntries p ⟨[], []⟩ entries) [] =
    { dirs := (entries.filter (fun ne => ne.2.isDir)).map (fun ne => p ++ [ne.1]),
      files := (entries.filter (fun ne => !ne.2.isDir)).map (fun ne => p ++ [ne.1]) }
  rw [show ∀ acc, enumForSplit fs acc [] = acc from fun _ => rfl]
  simpa using enumEntries_eq p entries ⟨[], []⟩

/-- In an association list with pairwise-distinct keys, a key determines its
value. -/
theorem nodup_keys_unique {α β : Type} (l : List (α × β))
    (h : (l.map Prod.fst).Nodup) {a : α} {b c : β}
    (hb : (a, b) ∈ l) (hc : (a, c) ∈ l) : b = c := by
  induction l with
  | nil => simp at hb
  | cons q rest ih =>
    simp only [List.map_cons, List.nodup_cons] at h
    rcases List.mem_cons.1 hb with hb1 | hb1 <;> rcases List.mem_cons.1 hc with hc1 | hc1
    · exact congrArg Prod.snd (hb1.trans hc1.symm)
    · rw [← hb1] at h
      exact absurd (List.mem_map_of_mem Prod.fst hc1) h.1
    · rw [← hc1] at h
      exact absurd (List.mem_map_of_mem Prod.fst hb1) h.1
    · exact ih h.2 hb1 hc1

/-- Appending a single segment to a fixed prefix is injective. -/
theorem append_singleton_injective (p : FilePath') :
    Function.Injective (fun nm => p ++ [nm]) := by
  intro a b h
  simpa using h

/-- The chunks of `chunkAux` concatenate back to the input list. -/
theorem chunkAux_flatten {α : Type} (size : Nat) (hsize : 1 ≤ size) :
    ∀ (fuel : Nat) (l : List α), l.length ≤ fuel → (chunkAux size fuel l).flatten = l := by
  intro fuel
  induction fuel with
  | zero =>
    intro l hl
    have hl0 : l = [] := List.length_eq_zero.1 (Nat.le_zero.1 hl)
    subst hl0
    rfl
  | succ fuel ih =>
    intro l hl
    cases l with
    | nil => rfl
    | cons x xs =>
      show ((x :: xs).take size :: chunkAux size fuel (xs.drop (size - 1))).flatten = x :: xs
      rw [List.flatten_cons, ih (xs.drop (size - 1)) (by rw [List.length_drop]; simp at hl; omega)]
      cases size with
      | zero => omega
      | succ s =>
        simp only [List.take_succ_cons, Nat.succ_sub_one, List.cons_append, List.cons.injEq,
          true_and]
        exact List.take_append_drop s xs

/-- `chunk` concatenates back to the input list for positive sizes. -/
theorem chunk_flatten {α : Type} (size : Nat) (hsize : 1 ≤ size) (l : List α) :
    (chunk size l).flatten = l := chunkAux_flatten size hsize l.length l le_rfl

/-- Every chunk has at most `size` elements. -/
theorem chunkAux_mem_length {α : Type} (size : Nat) :
    ∀ (fuel : Nat) (l : List α), ∀ c ∈ chunkAux size fuel l, c.length ≤ size := by
  intro fuel
  induction fuel with
  | zero => intro l c hc; cases l <;> simp [chunkAux] at hc
  | succ fuel ih =>
    intro l c hc
    cases l with
    | nil => simp [chunkAux] at hc
    | cons x xs =>
      rcases List.mem_cons.1 hc with hc | hc
      · subst hc
        rw [List.length_take]
        exact Nat.min_le_left _ _
      · exact ih _ c hc

/-- C5 counterexample: a scope holding one subdirectory and one plain file.
The split produces only the directory child, and the enumerated file
belongs to no child scope (it is not a child path nor under one), so a
file of N's enumerated contents is in *no* child scope, not exactly one. -/
theorem splitNode_mixed_scope_drops_file :
    (splitEnumOf fsMixedFx [[]]).files = [["f"]] ∧
    splitChildScopes (splitEnumOf fsMixedFx [[]]) =
      [{ scope_type := .dir, paths := [["a"]], label := "a" }] ∧
    ∀ c ∈ splitChildScopes (splitEnumOf fsMixedFx [[]]),
      ["f"] ∉ c.paths ∧ ∀ d ∈ c.paths, ¬ d <+: ["f"] := by decide

/-- C5 amended: splitting a single-directory scope produces, when any
subdirectory exists, exactly one `dir` child per subdirectory — pairwise
non-overlapping (neither path a prefix of the other) — while the
enumerated plain files are dropped: they belong to no child scope.  Only
when no subdirectory exists are the enumerated files grouped into
`file_group` chunks of up to 8 that are pairwise disjoint and cover every
enumerated file.  Every child path comes from the directory's enumerated
entries. -/
theorem splitNode_child_scope_partition (fs : FSEntry) (p : FilePath')
    (entries : List (String × FSEntry))
    (hlook : FSEntry.lookup p fs = some (.dir entries))
    (hnodup : (entries.map Prod.fst).Nodup) :
    ((splitEnumOf fs [p]).dirs ≠ [] →
      splitChildScopes (splitEnumOf fs [p]) =
        (splitEnumOf fs [p]).dirs.map
          (fun d => { scope_type := .dir, paths := [d], label := d.getLastD "" }) ∧
      (splitEnumOf fs [p]).dirs.Pairwise (fun d1 d2 => ¬ d1 <+: d2 ∧ ¬ d2 <+: d1) ∧
      (∀ q ∈ (splitEnumOf fs [p]).files, ∀ c ∈ splitChildScopes (splitEnumOf fs [p]),
        q ∉ c.paths ∧ ∀ d ∈ c.paths, ¬ d <+: q)) ∧
    ((splitEnumOf fs [p]).dirs = [] →
      ((splitChildScopes (splitEnumOf fs [p])).map (fun c => c.paths)).flatten =
        (splitEnumOf fs [p]).files ∧
      (∀ c ∈ splitChildScopes (splitEnumOf fs [p]),
        c.paths.length ≤ 8 ∧ c.scope_type = .file_group) ∧
      ((splitChildScopes (splitEnumOf fs [p])).map (fun c => c.paths)).Pairwise
        List.Disjoint) ∧
    (∀ q ∈ (splitEnumOf fs [p]).dirs ++ (splitEnumOf fs [p]).files,
      ∃ nm ent, (nm, ent) ∈ entries ∧ q = p ++ [nm]) := by
  have hE := splitEnumOf_single_dir fs p entries hlook
  have hdirs : (splitEnumOf fs [p]).dirs =
      (entries.filter (fun ne => ne.2.isDir)).map (fun ne => p ++ [ne.1]) := by rw [hE]
  have hfiles : (splitEnumOf fs [p]).files =
      (entries.filter (fun ne => !ne.2.isDir)).map (fun ne => p ++ [ne.1]) := by rw [hE]
  have hmapnd : ∀ (pred : String × FSEntry → Bool),
      ((entries.filter pred).map (fun ne => p ++ [ne.1])).Nodup := by
    intro pred
    have h1 : ((entries.filter pred).map Prod.fst).Nodup :=
      hnodup.sublist ((entries.filter_sublist).map Prod.fst)
    have h2 : (entries.filter pred).map (fun ne => p ++ [ne.1]) =
        ((entries.filter pred).map Prod.fst).map (fun nm => p ++ [nm]) := by
      rw [List.map_map]
      rfl
    rw [h2]
    exact h1.map (append_singleton_injective p)
  have hdirsnd : (splitEnumOf fs [p]).dirs.Nodup := by rw [hdirs]; exact hmapnd _
  have hfilesnd : (splitEnumOf fs [p]).files.Nodup := by rw [hfiles]; exact hmapnd _
  have hdirShape : ∀ d ∈ (splitEnumOf fs [p]).dirs,
      ∃ ne, ne ∈ entries ∧ ne.2.isDir = true ∧ d = p ++ [ne.1] := by
    intro d hd
    rw [hdirs] at hd
    obtain ⟨ne, hne, rfl⟩ := List.mem_map.1 hd
    obtain ⟨hmem, hpred⟩ := List.mem_filter.1 hne
    exact ⟨ne, hmem, hpred, rfl⟩
  have hfileShape : ∀ q ∈ (splitEnumOf fs [p]).files,
      ∃ ne, ne ∈ entries ∧ ne.2.isDir = false ∧ q = p ++ [ne.1] := by
    intro q hq
    rw [hfiles] at hq
    obtain ⟨ne, hne, rfl⟩ := List.mem_map.1 hq
    obtain ⟨hmem, hpred⟩ := List.mem_filter.1 hne
    exact ⟨ne, hmem, by simpa using hpred, rfl⟩
  refine ⟨?_, ?_, ?_⟩
  · intro hne
    have hlen : (splitEnumOf fs [p]).dirs.length > 0 := List.length_pos.2 hne
    have hscopes : splitChildScopes (splitEnumOf fs [p]) =
        (splitEnumOf fs [p]).dirs.map
          (fun d => { scope_type := .dir, paths := [d], label := d.getLastD "" }) := by
      unfold splitChildScopes
      rw [if_pos hlen]
    refine ⟨hscopes, ?_, ?_⟩
    · refine hdirsnd.imp_of_mem ?_
      intro d1 d2 hd1 hd2 hne12
      obtain ⟨ne1, _, _, rfl⟩ := hdirShape d1 hd1
      obtain ⟨ne2, _, _, rfl⟩ := hdirShape d2 hd2
      constructor
      · intro hpre
        exact hne12 (hpre.eq_of_length (by simp))
      · intro hpre
        exact hne12 (hpre.eq_of_length (by simp)).symm
    · intro q hq c hc
      rw [hscopes] at hc
      obtain ⟨d, hd, rfl⟩ := List.mem_map.1 hc
      obtain ⟨nef, hnef, hneff, rfl⟩ := hfileShape q hq
      obtain ⟨ned, hned, hnedd, rfl⟩ := hdirShape d hd
      have hqd : ¬ p ++ [ned.1] = p ++ [nef.1] := by
        intro heq
        have hname : ned.1 = nef.1 := by simpa using heq
        have : ned.2 = nef.2 := by
          rcases ned with ⟨n1, e1⟩
          rcases nef with ⟨n2, e2⟩
          simp only at hname
          subst hname
          exact nodup_keys_unique entries hnodup hned hnef
        rw [this, hneff] at hnedd
        exact Bool.noConfusion hnedd
      constructor
      · intro hmem
        simp only [List.mem_singleton] at hmem
        exact hqd hmem.symm
      · intro d' hd' hpre
        simp only [List.mem_singleton] at hd'
        subst hd'
        exact hqd (hpre.eq_of_length (by simp))
  · intro hnil
    have hlen : ¬ (splitEnumOf fs [p]).dirs.length > 0 := by
      rw [hnil]
      simp
    have hscopes : splitChildScopes (splitEnumOf fs [p]) =
        (chunk 8 (splitEnumOf fs [p]).files).enum.map
          (fun gi => { scope_type := .file_group, paths := gi.2,
                       label := "group-" ++ toString (gi.1 + 1) }) := by
      unfold splitChildScopes
      rw [if_neg hlen]
    have hpaths : (splitChildScopes (splitEnumOf fs [p])).map (fun c => c.paths) =
        chunk 8 (splitEnumOf fs [p]).files := by
      rw [hscopes, List.map_map]
      exact List.enum_map_snd _
    refine ⟨?_, ?_, ?_⟩
    · rw [hpaths]
      exact chunk_flatten 8 (by omega) _
    · intro c hc
      constructor
      · have : c.paths ∈ (splitChildScopes (splitEnumOf fs [p])).map (fun c => c.paths) :=
          List.mem_map_of_mem _ hc
        rw [hpaths] at this
        exact chunkAux_mem_length 8 _ _ c.paths this
      · rw [hscopes] at hc
        obtain ⟨gi, _, rfl⟩ := List.mem_map.1 hc
        rfl
    · rw [hpaths]
      have hjoin : (chunk 8 (splitEnumOf fs [p]).files).flatten.Nodup := by
        rw [chunk_flatten 8 (by omega)]
        exact hfilesnd
      exact (List.nodup_flatten.1 hjoin).2
  · intro q hq
    rcases List.mem_append.1 hq with hq | hq
    · obtain ⟨ne, hmem, _, rfl⟩ := hdirShape q hq
      exact ⟨ne.1, ne.2, hmem, rfl⟩
    · obtain ⟨ne, hmem, _, rfl⟩ := hfileShape q hq
      exact ⟨ne.1, ne.2, hmem, rfl⟩

/-- C5 witness: the partition theorem applied to the mixed fixture
directory (one subdirectory, one file). -/
theorem splitNode_child_scope_partition_witness :
    ((splitEnumOf fsMixedFx [[]]).dirs ≠ [] →
      splitChildScopes (splitEnumOf fsMixedFx [[]]) =
        (splitEnumOf fsMixedFx [[]]).dirs.map
          (fun d => { scope_type := .dir, paths := [d], label := d.getLastD "" }) ∧
      (splitEnumOf fsMixedFx [[]]).dirs.Pairwise (fun d1 d2 => ¬ d1 <+: d2 ∧ ¬ d2 <+: d1) ∧
      (∀ q ∈ (splitEnumOf fsMixedFx [[]]).files,
        ∀ c ∈ splitChildScopes (splitEnumOf fsMixedFx [[]]),
          q ∉ c.paths ∧ ∀ d ∈ c.paths, ¬ d <+: q)) ∧
    ((splitEnumOf fsMixedFx [[]]).dirs = [] →
      ((splitChildScopes (splitEnumOf fsMixedFx [[]])).map (fun c => c.paths)).flatten =
        (splitEnumOf fsMixedFx [[]]).files ∧
      (∀ c ∈ splitChildScopes (splitEnumOf fsMixedFx [[]]),
        c.paths.length ≤ 8 ∧ c.scope_type = .file_group) ∧
      ((splitChildScopes (splitEnumOf fsMixedFx [[]])).map (fun c => c.paths)).Pairwise
        List.Disjoint) ∧
    (∀ q ∈ (splitEnumOf fsMixedFx [[]]).dirs ++ (splitEnumOf fsMixedFx [[]]).files,
      ∃ nm ent, (nm, ent) ∈ [("a", FSEntry.dir []), ("f", FSEntry.file 1)] ∧
        q = [] ++ [nm]) :=
  splitNode_child_scope_partition fsMixedFx [] [("a", FSEntry.dir []), ("f", FSEntry.file 1)]
    rfl (by decide)

end PiRLM
